import Mathlib

/-!
Verification development for the PostgreSQL MCP server access-policy engine
(`src/mcp/postgres/server.py`).  The Python functions `_strip_sql_for_policy`,
`_ensure_single_statement`, `_require_where_for_update_delete`,
`_enforce_access_policy`, `_set_access_mode` and the module-level
`_ACCESS_MODE` initialisation are shallowly embedded over `List Char` /
`String`.  Python `str` operations are modelled on their ASCII fragment:
`str.lower` as `Char.toLower`, `str.isalnum` as `Char.isAlphanum`, regex
word characters `\w` as ASCII alphanumerics plus underscore, and the regex
and `str.strip` whitespace class as the six ASCII whitespace characters.
-/

/-- The single-quote character (ASCII 39). -/
def sqc : Char := Char.ofNat 39

/-- The double-quote character (ASCII 34). -/
def dqc : Char := Char.ofNat 34

/-- ASCII vertical tab. -/
def vtab : Char := Char.ofNat 11

/-- ASCII form feed. -/
def ffeed : Char := Char.ofNat 12

/-- ASCII fragment of the Python whitespace class used by `str.strip` and
regex `\s`: space, tab, newline, carriage return, vertical tab, form feed. -/
def pyIsSpace (c : Char) : Bool :=
  c == ' ' || c == '\t' || c == '\n' || c == '\r' || c == vtab || c == ffeed

/-- Regex word character `[A-Za-z0-9_]` (ASCII fragment of Python `\w`).
This is also exactly the dollar-quote tag character class
`[A-Za-z0-9_]` of `_strip_sql_for_policy`. -/
def wordChar (c : Char) : Bool :=
  c.isAlphanum || c == '_'

/-- `headIs x s`: `s` starts with the character `x`. -/
def headIs (x : Char) : List Char → Bool
  | [] => false
  | c :: _ => c == x

/-- `headIsNot x s`: `s` is empty or starts with a character other than
`x`. -/
def headIsNot (x : Char) : List Char → Bool
  | [] => true
  | c :: _ => !(c == x)

/-- `s` is empty or starts with a newline (the state right after a line
comment, whose scan stops at, and does not consume, the newline). -/
def headNLorNil : List Char → Bool
  | [] => true
  | c :: _ => c == '\n'

/-- Substring test: Python `needle in hay`.  True when `pat` occurs as a
contiguous sublist of `s` (the empty pattern occurs everywhere). -/
def containsSub (pat : List Char) : List Char → Bool
  | [] => pat.isPrefixOf []
  | c :: rest => pat.isPrefixOf (c :: rest) || containsSub pat rest

/-- Scan `s` for the first occurrence of `pat`; on a hit, return the suffix
of `s` just after that occurrence.  This is the search loop of the
block-comment and dollar-quote cases of `_strip_sql_for_policy`
(`sql.find(tag, i)` / the `*/` scan). -/
def dropAfterSub (pat : List Char) : List Char → Option (List Char)
  | [] => if pat.isPrefixOf [] then some [] else none
  | c :: rest =>
    if pat.isPrefixOf (c :: rest) then some ((c :: rest).drop pat.length)
    else dropAfterSub pat rest

/-- Python `hay.find(needle)` as an `Option Nat` (`none` for `-1`):
index of the first occurrence of `needle` in the list. -/
def findSubstrIdx (needle : List Char) : List Char → Option Nat
  | [] => if needle.isPrefixOf [] then some 0 else none
  | c :: rest =>
    if needle.isPrefixOf (c :: rest) then some 0
    else (findSubstrIdx needle rest).map (fun k => k + 1)

/-- The quote-scanning loop of `_strip_sql_for_policy` (both the
single-quote and double-quote cases), started just after the opening
quote `q`: a doubled `q` is an escape and does not terminate; a lone `q`
terminates and the suffix after it is returned; if no terminator is found
the whole input is consumed and `[]` is returned. -/
def skipQuoted (q : Char) : List Char → List Char
  | [] => []
  | [_] => []
  | c :: c2 :: rest =>
    if c == q then
      if c2 == q then skipQuoted q rest else c2 :: rest
    else skipQuoted q (c2 :: rest)

/-- `qbody q b = true` iff the quote scanner consumes all of `b` without
finding a terminating quote: every occurrence of `q` in `b` starts a
doubled (escaped) pair. -/
def qbody (q : Char) : List Char → Bool
  | [] => true
  | [c] => !(c == q)
  | c :: c2 :: rest =>
    if c == q then c2 == q && qbody q rest
    else qbody q (c2 :: rest)

/-- One fuel-indexed step function for `_strip_sql_for_policy`.  The Python
loop advances a cursor; here each iteration consumes a nonempty prefix of
the remaining input, so `fuel := input length` always suffices (the `0`
case is unreachable from `stripSql`).  Branches, in source order:
line comment `--` (to, not including, the newline), block comment
`/* ... */` (unterminated: consume to end), single-quoted literal,
double-quoted identifier, dollar-quoted literal `$tag$ ... $tag$`
(no tag match: `$` is an ordinary character; unterminated: consume to
end), ordinary character. -/
def stripSqlF : Nat → List Char → List Char
  | 0, _ => []
  | _ + 1, [] => []
  | fuel + 1, c :: rest =>
    if c = '-' ∧ rest.head? = some '-' then
      ' ' :: stripSqlF fuel (rest.tail.dropWhile (fun x => x != '\n'))
    else if c = '/' ∧ rest.head? = some '*' then
      match dropAfterSub ['*', '/'] rest.tail with
      | some r => ' ' :: stripSqlF fuel r
      | none => [' ']
    else if c = sqc then
      ' ' :: stripSqlF fuel (skipQuoted sqc rest)
    else if c = dqc then
      ' ' :: stripSqlF fuel (skipQuoted dqc rest)
    else if c = '$' then
      if headIs '$' (rest.dropWhile wordChar) then
        match dropAfterSub ('$' :: (rest.takeWhile wordChar ++ ['$'])) ((rest.dropWhile wordChar).tail) with
        | some r => ' ' :: stripSqlF fuel r
        | none => [' ']
      else c :: stripSqlF fuel rest
    else c :: stripSqlF fuel rest

/-- `_strip_sql_for_policy`: replace every comment and quoted /
identifier / dollar-quoted span by a single space; all other characters
pass through unchanged. -/
def stripSql (s : List Char) : List Char :=
  stripSqlF s.length s

/-- Python `str.strip()` (ASCII whitespace fragment). -/
def pyStripChars (s : List Char) : List Char :=
  ((s.dropWhile pyIsSpace).reverse.dropWhile pyIsSpace).reverse

/-- Python `str.rstrip(";")`: remove every trailing semicolon. -/
def rstripSemi (s : List Char) : List Char :=
  (s.reverse.dropWhile (fun c => c == ';')).reverse

/-- `_ensure_single_statement`: strip whitespace, remove all trailing
semicolons, strip again; if a semicolon remains anywhere the statement is
rejected (`none`, the `PermissionError` for multiple statements),
otherwise the normalized text is returned. -/
def ensureSingleStatement (s : List Char) : Option (List Char) :=
  let t := pyStripChars s
  let t2 := pyStripChars (rstripSemi t)
  if t2.contains ';' then none else some t2

/-- Word-boundary test used after a keyword by the regex `\b`: the match
may be followed by the end of the text or by a non-word character. -/
def boundAfter : List Char → Bool
  | [] => true
  | c :: _ => !wordChar c

/-- Position test for regex `\bkw\b` at the head of `s`, where `prevW`
says whether the character just before `s` is a word character (`false`
at the start of the text).  Only used with keywords that start and end
with word characters, for which `\b` means exactly this. -/
def wordHere (prevW : Bool) (kw s : List Char) : Bool :=
  !prevW && kw.isPrefixOf s && boundAfter (s.drop kw.length)

/-- Left-to-right scan of `re.search` for `\b(kw1|kw2|...)\b`. -/
def searchWords (kws : List (List Char)) : Bool → List Char → Bool
  | prevW, [] => kws.any (fun kw => wordHere prevW kw [])
  | prevW, c :: rest =>
    (kws.any (fun kw => wordHere prevW kw (c :: rest))) || searchWords kws (wordChar c) rest

/-- `re.search(r"\b(kw1|...|kwn)\b", s)` as a Bool. -/
def containsWordAny (s : List Char) (kws : List (List Char)) : Bool :=
  searchWords kws false s

/-- The word-character flag the scanner carries after walking over `pre`,
starting from `prevW`: whether the last character of `pre` (or the
previous context when `pre` is empty) is a word character. -/
def prevWordAfter : List Char → Bool → Bool
  | [], w => w
  | c :: rest, _ => prevWordAfter rest (wordChar c)

/-- `re.match(r"^\s*(kw1|...|kwn)\b", s)` as a Bool: skip leading
whitespace, then one of the keywords followed by a word boundary. -/
def matchStartKeywords (s : List Char) (kws : List (List Char)) : Bool :=
  let t := s.dropWhile pyIsSpace
  kws.any (fun kw => kw.isPrefixOf t && boundAfter (t.drop kw.length))

/-- Position test for `\balter\s+system\b` at the head of `s`. -/
def alterSystemHere (prevW : Bool) (s : List Char) : Bool :=
  !prevW && "alter".toList.isPrefixOf s &&
  (let r := s.drop 5
   match r.head? with
   | some c =>
     pyIsSpace c &&
     (let r2 := r.dropWhile pyIsSpace
      "system".toList.isPrefixOf r2 && boundAfter (r2.drop 6))
   | none => false)

/-- `re.search(r"\balter\s+system\b", s)` as a Bool. -/
def searchAlterSystem : Bool → List Char → Bool
  | prevW, [] => alterSystemHere prevW []
  | prevW, c :: rest => alterSystemHere prevW (c :: rest) || searchAlterSystem (wordChar c) rest

/-- `has_word_at` from `_require_where_for_update_delete`: accepts an
index (the result of `str.find`, `none` for `-1`) when the preceding
character, if any, is not alphanumeric and the character just after the
keyword, if any, is not alphanumeric.  Note: Python `str.isalnum`, not
the regex `\w` class, so an underscore neighbour counts as a boundary
here; and the occurrence itself is not re-checked. -/
def hasWordAt (lw : List Char) (idx : Option Nat) (word : List Char) : Bool :=
  match idx with
  | none => false
  | some i =>
    (i == 0 || !((lw.getD (i - 1) ' ').isAlphanum)) &&
    (decide (lw.length ≤ i + word.length) || !((lw.getD (i + word.length) ' ').isAlphanum))

/-- The index selection of `_require_where_for_update_delete`: the first
substring occurrence of `update` and of `delete`, each considered only
when `has_word_at` accepts it, and the smaller surviving offset taken. -/
def firstUpdateDeleteIdx (lw : List Char) : Option Nat :=
  let updateIdx := findSubstrIdx "update".toList lw
  let deleteIdx := findSubstrIdx "delete".toList lw
  let first1 := if hasWordAt lw updateIdx "update".toList then updateIdx else none
  if hasWordAt lw deleteIdx "delete".toList then
    match first1, deleteIdx with
    | none, d => d
    | some u, some d => if d < u then some d else some u
    | some u, none => some u
  else first1

/-- The WHERE test applied to the tail from the selected offset:
the text `" where "` occurs in the tail, or the tail ends with
`" where"`. -/
def whereOk (tail : List Char) : Bool :=
  containsSub " where ".toList tail || " where".toList.isSuffixOf tail

/-- `_require_where_for_update_delete` as a Bool (`true` = no
`PermissionError`). -/
def requireWhereOk (lw : List Char) : Bool :=
  match firstUpdateDeleteIdx lw with
  | none => true
  | some i => whereOk (lw.drop i)

/-- The violation taxonomy of the spec, one value per distinct error the
policy engine can raise: the multiple-statement `PermissionError` of
`_ensure_single_statement`; the readonly `pg_execute` rejection; the
statement-shape rejections (readonly start/keyword/explain rules and the
limited GRANT/REVOKE, DROP/TRUNCATE, ALTER SYSTEM rules); the limited
missing-WHERE rejection; and the final `ValueError` for an unknown
access mode. -/
inductive PolicyError where
  | multipleStatementsForbidden
  | toolForbidden
  | statementTypeForbidden
  | missingWhereClause
  | unknownAccessMode
deriving DecidableEq, Repr

/-- The readonly forbidden-keyword list of `_enforce_access_policy`. -/
def kwListRO : List (List Char) :=
  ["insert".toList, "update".toList, "delete".toList, "create".toList,
   "alter".toList, "drop".toList, "truncate".toList, "grant".toList,
   "revoke".toList, "call".toList, "do".toList]

/-- `_enforce_access_policy(sql, tool_name)` with the access mode passed
explicitly (the Python reads the module global `_ACCESS_MODE`).  `none`
means the call returns normally (allow); `some e` is the raised error. -/
def enforceAccessPolicy (mode toolName sql : String) : Option PolicyError :=
  if mode = "unrestricted" then none
  else
    match ensureSingleStatement (stripSql sql.toList) with
    | none => some PolicyError.multipleStatementsForbidden
    | some single =>
      let lowered := single.map Char.toLower
      if mode = "readonly" then
        if toolName = "pg_execute" then some PolicyError.toolForbidden
        else if !matchStartKeywords lowered ["select".toList, "with".toList, "explain".toList] then
          some PolicyError.statementTypeForbidden
        else if containsWordAny lowered kwListRO then
          some PolicyError.statementTypeForbidden
        else if matchStartKeywords lowered ["explain".toList] &&
            !containsWordAny lowered ["select".toList, "with".toList] then
          some PolicyError.statementTypeForbidden
        else none
      else if mode = "limited" then
        if containsWordAny lowered ["grant".toList, "revoke".toList] then
          some PolicyError.statementTypeForbidden
        else if containsWordAny lowered ["drop".toList, "truncate".toList] then
          some PolicyError.statementTypeForbidden
        else if searchAlterSystem false lowered then
          some PolicyError.statementTypeForbidden
        else if requireWhereOk lowered then none
        else some PolicyError.missingWhereClause
      else some PolicyError.unknownAccessMode

/-- `_set_access_mode`: normalize by strip and lowercase; accept only the
three known modes, otherwise raise `ValueError` (the startup
configuration error). -/
def setAccessMode (mode : String) : Except String String :=
  let normalized := String.mk ((pyStripChars mode.toList).map Char.toLower)
  if normalized = "readonly" ∨ normalized = "limited" ∨ normalized = "unrestricted" then
    Except.ok normalized
  else
    Except.error "access mode must be one of: readonly, limited, unrestricted"

/-- The module-level initialisation
`_ACCESS_MODE = (os.getenv("PG_ACCESS_MODE") or "readonly").strip().lower()`:
the environment value (an unset variable or the empty string falls back
to `"readonly"`) is stripped and lowercased with NO membership check. -/
def initialAccessMode (envValue : Option String) : String :=
  let base :=
    match envValue with
    | none => "readonly"
    | some s => if s = "" then "readonly" else s
  String.mk ((pyStripChars base.toList).map Char.toLower)

/-- One lexical item of an SQL text, as recognized by
`_strip_sql_for_policy`: an ordinary code character, or one complete
comment / quoted / dollar-quoted span (span constructors carry the span
body without its delimiters). -/
inductive SqlItem where
  | code (c : Char)
  | lineC (body : List Char)
  | blockC (body : List Char)
  | squote (body : List Char)
  | dquote (body : List Char)
  | dollarQ (tag body : List Char)
deriving DecidableEq, Repr

/-- The raw text of one item. -/
def renderItem : SqlItem → List Char
  | SqlItem.code c => [c]
  | SqlItem.lineC b => '-' :: '-' :: b
  | SqlItem.blockC b => '/' :: '*' :: (b ++ ['*', '/'])
  | SqlItem.squote b => sqc :: (b ++ [sqc])
  | SqlItem.dquote b => dqc :: (b ++ [dqc])
  | SqlItem.dollarQ t b => '$' :: (t ++ '$' :: (b ++ '$' :: (t ++ ['$'])))

/-- The raw text of an item sequence. -/
def renderItems : List SqlItem → List Char
  | [] => []
  | i :: rest => renderItem i ++ renderItems rest

/-- What the stripper emits for one item: code characters pass through,
every span becomes a single separator. -/
def itemScrub : SqlItem → Char
  | SqlItem.code c => c
  | _ => ' '

/-- A code character is safe in front of the continuation `next` when it
does not itself open a span there: it is not a quote, does not form `--`
or `/*` with the next character, and does not start a complete
dollar-quote tag. -/
def okCodeChar (c : Char) (next : List Char) : Bool :=
  !(c == sqc) && !(c == dqc) &&
  !(c == '-' && headIs '-' next) &&
  !(c == '/' && headIs '*' next) &&
  !(c == '$' && headIs '$' (next.dropWhile wordChar))

/-- Well-formedness of an item sequence followed by a continuation text
`k`: each item is exactly the span (or code character) the left-to-right
scan of `_strip_sql_for_policy` consumes at its position.  Line-comment
bodies contain no newline and are followed by a newline or the end;
block-comment bodies do not contain (nor create with the closing `*`)
an early `*/`; quote bodies never terminate the quote early and the
following text does not extend the closing quote into an escape pair;
dollar bodies do not contain (nor create with the closing delimiter) an
early `$tag$`. -/
def wfItemsK : List SqlItem → List Char → Bool
  | [], _ => true
  | SqlItem.code c :: rest, k => okCodeChar c (renderItems rest ++ k) && wfItemsK rest k
  | SqlItem.lineC b :: rest, k =>
    b.all (fun x => x != '\n') && headNLorNil (renderItems rest ++ k) && wfItemsK rest k
  | SqlItem.blockC b :: rest, k =>
    !(containsSub ['*', '/'] (b ++ ['*'])) && wfItemsK rest k
  | SqlItem.squote b :: rest, k =>
    qbody sqc b && headIsNot sqc (renderItems rest ++ k) && wfItemsK rest k
  | SqlItem.dquote b :: rest, k =>
    qbody dqc b && headIsNot dqc (renderItems rest ++ k) && wfItemsK rest k
  | SqlItem.dollarQ t b :: rest, k =>
    t.all wordChar && !(containsSub ('$' :: (t ++ ['$'])) (b ++ '$' :: t)) && wfItemsK rest k

/-- Follows the claim wording (for comparison with the code): a
whole-word occurrence of `kw` at offset `i` of `s`, where the keyword
text actually occurs at `i` and the neighbours on both sides, when
present, are not alphanumeric. -/
def specWordAtAlnum (s kw : List Char) (i : Nat) : Bool :=
  kw.isPrefixOf (s.drop i) &&
  (i == 0 || !((s.getD (i - 1) ' ').isAlphanum)) &&
  (decide (s.length ≤ i + kw.length) || !((s.getD (i + kw.length) ' ').isAlphanum))

/-- Follows the claim wording (for comparison with the code): the offset
of the first whole-word occurrence of `kw` in `s`. -/
def specFirstWholeWordIdx (s kw : List Char) : Option Nat :=
  (List.range (s.length + 1)).find? (fun i => specWordAtAlnum s kw i)

/-- Follows the claim wording of C3 (for comparison with the code): trim
whitespace and strip at most ONE trailing `;` together with the
whitespace around it. -/
def specStripOneTerminator (s : List Char) : List Char :=
  let t := pyStripChars s
  if headIs ';' t.reverse then pyStripChars t.dropLast else t

/-- `SELECT 'I will DELETE this' AS note` (single quotes spelled via
`sqc`). -/
def c1sqlQuote : String :=
  String.mk ("SELECT ".toList ++ sqc :: ("I will DELETE this".toList ++ sqc :: " AS note".toList))

/-- `SELECT 'x AND DROP TABLE t` — an unterminated single-quoted
literal. -/
def c10sqlSingle : String :=
  String.mk ("SELECT ".toList ++ sqc :: "x AND DROP TABLE t".toList)

/-- `SELECT "x AND DROP TABLE t` — an unterminated double-quoted
identifier. -/
def c10sqlDouble : String :=
  String.mk ("SELECT ".toList ++ dqc :: "x AND DROP TABLE t".toList)

/-! Basic facts about the search primitives. -/

theorem isPrefixOf_append_self (l t : List Char) : l.isPrefixOf (l ++ t) = true := by
  induction l with
  | nil => simp
  | cons a as ih => simpa [List.isPrefixOf_cons₂] using ih

theorem isPrefixOf_take :
    ∀ (p L : List Char) (n : Nat), p.isPrefixOf L = true → p.length ≤ n →
      p.isPrefixOf (L.take n) = true := by
  intro p
  induction p with
  | nil => intro L n _ _; simp
  | cons a as ih =>
    intro L n hpre hn
    cases L with
    | nil => simp at hpre
    | cons b bs =>
      cases n with
      | zero => simp at hn
      | succ m =>
        rw [List.take_succ_cons]
        simp only [List.isPrefixOf_cons₂, Bool.and_eq_true] at hpre ⊢
        refine ⟨hpre.1, ih bs m hpre.2 ?_⟩
        simp only [List.length_cons] at hn
        omega

theorem containsSub_of_isPrefixOf (p X : List Char) (h : p.isPrefixOf X = true) :
    containsSub p X = true := by
  cases X with
  | nil => simpa [containsSub] using h
  | cons c rest => simp [containsSub, h]

theorem containsSub_cons_false {p : List Char} {c : Char} {X : List Char}
    (h : containsSub p (c :: X) = false) :
    p.isPrefixOf (c :: X) = false ∧ containsSub p X = false := by
  simpa [containsSub] using h

theorem dropAfterSub_append (pat : List Char) (hne : pat ≠ []) :
    ∀ (b r : List Char), containsSub pat (b ++ pat.dropLast) = false →
      dropAfterSub pat (b ++ (pat ++ r)) = some r := by
  intro b
  induction b with
  | nil =>
    intro r _
    cases pat with
    | nil => exact absurd rfl hne
    | cons p ps =>
      show dropAfterSub (p :: ps) (p :: (ps ++ r)) = some r
      have hp : (p :: ps).isPrefixOf (p :: (ps ++ r)) = true := by
        simpa using isPrefixOf_append_self (p :: ps) r
      rw [dropAfterSub, if_pos hp]
      simpa using List.drop_left (p :: ps) r
  | cons c b' ih =>
    intro r hcs
    have hparts : pat.isPrefixOf (c :: (b' ++ pat.dropLast)) = false ∧
        containsSub pat (b' ++ pat.dropLast) = false :=
      containsSub_cons_false (by simpa using hcs)
    have hnp : pat.isPrefixOf (c :: (b' ++ (pat ++ r))) = false := by
      by_contra hx
      have hpre : pat.isPrefixOf (c :: (b' ++ (pat ++ r))) = true := by
        revert hx
        cases pat.isPrefixOf (c :: (b' ++ (pat ++ r))) <;> simp
      have hdecomp : pat.dropLast ++ [pat.getLast hne] = pat :=
        List.dropLast_append_getLast hne
      have hlist : c :: (b' ++ (pat ++ r)) =
          (c :: (b' ++ pat.dropLast)) ++ ([pat.getLast hne] ++ r) := by
        conv_lhs => rw [← hdecomp]
        simp
      have hplen : 0 < pat.length := List.length_pos.mpr hne
      have hlen : pat.length ≤ (c :: (b' ++ pat.dropLast)).length := by
        simp only [List.length_cons, List.length_append, List.length_dropLast]
        omega
      have htake : (c :: (b' ++ (pat ++ r))).take (c :: (b' ++ pat.dropLast)).length =
          c :: (b' ++ pat.dropLast) := by
        rw [hlist]; exact List.take_left ..
      have hpx : pat.isPrefixOf (c :: (b' ++ pat.dropLast)) = true := by
        have h1 := isPrefixOf_take pat _ (c :: (b' ++ pat.dropLast)).length hpre hlen
        rwa [htake] at h1
      rw [hparts.1] at hpx
      exact Bool.false_ne_true hpx
    show dropAfterSub pat (c :: (b' ++ (pat ++ r))) = some r
    rw [dropAfterSub, if_neg (by simp [hnp]), ih r hparts.2]

theorem skipQuoted_cons_term (q : Char) (r : List Char) (hr : headIsNot q r = true) :
    skipQuoted q (q :: r) = r := by
  cases r with
  | nil => simp [skipQuoted]
  | cons c2 r2 =>
    have h2 : (c2 == q) = false := by simpa [headIsNot] using hr
    simp [skipQuoted, h2]

theorem skipQuoted_append_aux (q : Char) :
    ∀ (n : Nat) (b r : List Char), b.length ≤ n → qbody q b = true → headIsNot q r = true →
      skipQuoted q (b ++ q :: r) = r := by
  intro n
  induction n with
  | zero =>
    intro b r hb hq hr
    have hb0 : b = [] := List.length_eq_zero.mp (Nat.le_zero.mp hb)
    subst hb0
    simpa using skipQuoted_cons_term q r hr
  | succ m ih =>
    intro b r hb hq hr
    cases b with
    | nil => simpa using skipQuoted_cons_term q r hr
    | cons c b' =>
      cases b' with
      | nil =>
        have hcf : (c == q) = false := by simpa [qbody] using hq
        show skipQuoted q (c :: (q :: r)) = r
        simp only [skipQuoted, hcf]
        exact skipQuoted_cons_term q r hr
      | cons c2 b'' =>
        have hlen2 : b''.length ≤ m := by
          simp only [List.length_cons] at hb; omega
        have hlen1 : (c2 :: b'').length ≤ m := by
          simp only [List.length_cons] at hb ⊢; omega
        by_cases hc : (c == q) = true
        · simp only [qbody, hc, if_true, Bool.and_eq_true] at hq
          show skipQuoted q (c :: (c2 :: (b'' ++ q :: r))) = r
          simp only [skipQuoted, hc, if_true, hq.1]
          exact ih b'' r hlen2 hq.2 hr
        · have hcf : (c == q) = false := by
            revert hc; cases c == q <;> simp
          have hq' : qbody q (c2 :: b'') = true := by
            simpa [qbody, hcf] using hq
          show skipQuoted q (c :: (c2 :: (b'' ++ q :: r))) = r
          simp only [skipQuoted, hcf]
          exact ih (c2 :: b'') r hlen1 hq' hr

theorem skipQuoted_append (q : Char) (b r : List Char) (hq : qbody q b = true)
    (hr : headIsNot q r = true) : skipQuoted q (b ++ q :: r) = r :=
  skipQuoted_append_aux q b.length b r (Nat.le_refl _) hq hr

theorem skipQuoted_unterminated_aux (q : Char) :
    ∀ (n : Nat) (b : List Char), b.length ≤ n → qbody q b = true →
      skipQuoted q b = [] := by
  intro n
  induction n with
  | zero =>
    intro b hb _
    have hb0 : b = [] := List.length_eq_zero.mp (Nat.le_zero.mp hb)
    subst hb0
    rfl
  | succ m ih =>
    intro b hb hq
    cases b with
    | nil => rfl
    | cons c b' =>
      cases b' with
      | nil => rfl
      | cons c2 b'' =>
        have hlen2 : b''.length ≤ m := by
          simp only [List.length_cons] at hb; omega
        have hlen1 : (c2 :: b'').length ≤ m := by
          simp only [List.length_cons] at hb ⊢; omega
        by_cases hc : (c == q) = true
        · simp only [qbody, hc, if_true, Bool.and_eq_true] at hq
          simp only [skipQuoted, hc, if_true, hq.1]
          exact ih b'' hlen2 hq.2
        · have hcf : (c == q) = false := by
            revert hc; cases c == q <;> simp
          have hq' : qbody q (c2 :: b'') = true := by
            simpa [qbody, hcf] using hq
          simp only [skipQuoted, hcf]
          exact ih (c2 :: b'') hlen1 hq'

theorem skipQuoted_unterminated (q : Char) (b : List Char) (hq : qbody q b = true) :
    skipQuoted q b = [] :=
  skipQuoted_unterminated_aux q b.length b (Nat.le_refl _) hq

theorem dropWhile_append_head_false (p : Char → Bool) :
    ∀ (t : List Char) (x : Char) (Y : List Char), (∀ c ∈ t, p c = true) → p x = false →
      (t ++ x :: Y).dropWhile p = x :: Y := by
  intro t
  induction t with
  | nil => intro x Y _ hx; simp [List.dropWhile_cons, hx]
  | cons c t' ih =>
    intro x Y ht hx
    have hc : p c = true := ht c (by simp)
    simp only [List.cons_append, List.dropWhile_cons, hc, if_true]
    exact ih x Y (fun a ha => ht a (by simp [ha])) hx

theorem takeWhile_append_all (p : Char → Bool) :
    ∀ (t : List Char) (x : Char) (Y : List Char), (∀ c ∈ t, p c = true) → p x = false →
      (t ++ x :: Y).takeWhile p = t := by
  intro t
  induction t with
  | nil => intro x Y _ hx; simp [List.takeWhile_cons, hx]
  | cons c t' ih =>
    intro x Y ht hx
    have hc : p c = true := ht c (by simp)
    simp only [List.cons_append, List.takeWhile_cons, hc, if_true]
    rw [ih x Y (fun a ha => ht a (by simp [ha])) hx]

theorem dropWhile_ne_nl :
    ∀ (b R : List Char), b.all (fun x => x != '\n') = true → headNLorNil R = true →
      (b ++ R).dropWhile (fun x => x != '\n') = R := by
  intro b
  induction b with
  | nil =>
    intro R _ hR
    cases R with
    | nil => rfl
    | cons c R' =>
      have hc : c = '\n' := by simpa [headNLorNil] using hR
      subst hc
      simp [List.dropWhile_cons]
  | cons c b' ih =>
    intro R hb hR
    simp only [List.all_cons, Bool.and_eq_true] at hb
    simp only [List.cons_append, List.dropWhile_cons, hb.1, if_true]
    exact ih R hb.2 hR

theorem stripSqlF_nil (f : Nat) : stripSqlF f [] = [] := by
  cases f <;> rfl

theorem stripSqlF_lineC (f : Nat) (b R : List Char)
    (hb : b.all (fun x => x != '\n') = true) (hR : headNLorNil R = true) :
    stripSqlF (f + 1) ('-' :: '-' :: (b ++ R)) = ' ' :: stripSqlF f R := by
  show stripSqlF (f + 1) ('-' :: ('-' :: (b ++ R))) = _
  simp only [stripSqlF]
  rw [if_pos ⟨trivial, rfl⟩]
  simp only [List.tail_cons]
  rw [dropWhile_ne_nl b R hb hR]

theorem stripSqlF_blockC (f : Nat) (b R : List Char)
    (hb : containsSub ['*', '/'] (b ++ ['*']) = false) :
    stripSqlF (f + 1) ('/' :: '*' :: (b ++ ('*' :: '/' :: R))) = ' ' :: stripSqlF f R := by
  show stripSqlF (f + 1) ('/' :: ('*' :: (b ++ ('*' :: '/' :: R)))) = _
  simp only [stripSqlF]
  rw [if_neg (fun h => absurd h.1 (by decide)), if_pos ⟨trivial, rfl⟩]
  simp only [List.tail_cons]
  have hda : dropAfterSub ['*', '/'] (b ++ ('*' :: '/' :: R)) = some R := by
    have h1 : containsSub ['*', '/'] (b ++ (['*', '/'] : List Char).dropLast) = false := by
      simpa using hb
    simpa using dropAfterSub_append ['*', '/'] (by simp) b R h1
  rw [hda]

theorem bool_not_true {b : Bool} (h : (!b) = true) : b = false := by
  cases b
  · rfl
  · simp at h

theorem stripSqlF_squote (f : Nat) (b R : List Char)
    (hb : qbody sqc b = true) (hR : headIsNot sqc R = true) :
    stripSqlF (f + 1) (sqc :: (b ++ sqc :: R)) = ' ' :: stripSqlF f R := by
  simp only [stripSqlF]
  rw [if_neg (fun h => absurd h.1 (by decide)), if_neg (fun h => absurd h.1 (by decide)),
    if_pos (by trivial)]
  rw [skipQuoted_append sqc b R hb hR]

theorem stripSqlF_dquote (f : Nat) (b R : List Char)
    (hb : qbody dqc b = true) (hR : headIsNot dqc R = true) :
    stripSqlF (f + 1) (dqc :: (b ++ dqc :: R)) = ' ' :: stripSqlF f R := by
  simp only [stripSqlF]
  rw [if_neg (fun h => absurd h.1 (by decide)), if_neg (fun h => absurd h.1 (by decide)),
    if_neg (by decide), if_pos (by trivial)]
  rw [skipQuoted_append dqc b R hb hR]

theorem stripSqlF_squote_unterminated (f : Nat) (b : List Char) (hb : qbody sqc b = true) :
    stripSqlF (f + 1) (sqc :: b) = [' '] := by
  simp only [stripSqlF]
  rw [if_neg (fun h => absurd h.1 (by decide)), if_neg (fun h => absurd h.1 (by decide)),
    if_pos (by trivial)]
  rw [skipQuoted_unterminated sqc b hb, stripSqlF_nil]

theorem stripSqlF_dquote_unterminated (f : Nat) (b : List Char) (hb : qbody dqc b = true) :
    stripSqlF (f + 1) (dqc :: b) = [' '] := by
  simp only [stripSqlF]
  rw [if_neg (fun h => absurd h.1 (by decide)), if_neg (fun h => absurd h.1 (by decide)),
    if_neg (by decide), if_pos (by trivial)]
  rw [skipQuoted_unterminated dqc b hb, stripSqlF_nil]

theorem stripSqlF_dollar (f : Nat) (t b R : List Char)
    (ht : t.all wordChar = true)
    (hb : containsSub ('$' :: (t ++ ['$'])) (b ++ '$' :: t) = false) :
    stripSqlF (f + 1) ('$' :: (t ++ '$' :: (b ++ '$' :: (t ++ '$' :: R)))) =
      ' ' :: stripSqlF f R := by
  simp only [stripSqlF]
  rw [if_neg (fun h => absurd h.1 (by decide)), if_neg (fun h => absurd h.1 (by decide)),
    if_neg (by decide), if_neg (by decide), if_pos (by trivial)]
  have hmem : ∀ c ∈ t, wordChar c = true := fun c hc => List.all_eq_true.mp ht c hc
  have hdw : List.dropWhile wordChar (t ++ '$' :: (b ++ '$' :: (t ++ '$' :: R))) =
      '$' :: (b ++ '$' :: (t ++ '$' :: R)) :=
    dropWhile_append_head_false wordChar t '$' _ hmem (by decide)
  have htw : List.takeWhile wordChar (t ++ '$' :: (b ++ '$' :: (t ++ '$' :: R))) = t :=
    takeWhile_append_all wordChar t '$' _ hmem (by decide)
  rw [hdw, htw, if_pos (by simp [headIs])]
  simp only [List.tail_cons]
  have hda : dropAfterSub ('$' :: (t ++ ['$'])) (b ++ '$' :: (t ++ '$' :: R)) = some R := by
    have hdl2 : ('$' :: (t ++ ['$'])).dropLast = '$' :: t := by
      rw [show ('$' :: (t ++ ['$'])) = ('$' :: t) ++ ['$'] by simp]
      exact List.dropLast_concat ..
    have h1 : containsSub ('$' :: (t ++ ['$'])) (b ++ ('$' :: (t ++ ['$'])).dropLast) = false := by
      rw [hdl2]; exact hb
    simpa using dropAfterSub_append ('$' :: (t ++ ['$'])) (by simp) b R h1
  rw [hda]

theorem stripSqlF_code (f : Nat) (c : Char) (R : List Char) (h : okCodeChar c R = true) :
    stripSqlF (f + 1) (c :: R) = c :: stripSqlF f R := by
  simp only [okCodeChar, Bool.and_eq_true] at h
  obtain ⟨⟨⟨⟨h1, h2⟩, h3⟩, h4⟩, h5⟩ := h
  have h1' := bool_not_true h1
  have h2' := bool_not_true h2
  have h3' := bool_not_true h3
  have h4' := bool_not_true h4
  have h5' := bool_not_true h5
  have hcs : ¬(c = sqc) := by
    intro hh; rw [hh] at h1'; simp at h1'
  have hcd : ¬(c = dqc) := by
    intro hh; rw [hh] at h2'; simp at h2'
  have hc1 : ¬(c = '-' ∧ R.head? = some '-') := by
    rintro ⟨rfl, hh⟩
    simp only [beq_self_eq_true, Bool.true_and] at h3'
    cases R with
    | nil => simp at hh
    | cons x X =>
      simp only [List.head?_cons, Option.some.injEq] at hh
      subst hh
      simp [headIs] at h3'
  have hc2 : ¬(c = '/' ∧ R.head? = some '*') := by
    rintro ⟨rfl, hh⟩
    simp only [beq_self_eq_true, Bool.true_and] at h4'
    cases R with
    | nil => simp at hh
    | cons x X =>
      simp only [List.head?_cons, Option.some.injEq] at hh
      subst hh
      simp [headIs] at h4'
  simp only [stripSqlF]
  rw [if_neg hc1, if_neg hc2, if_neg hcs, if_neg hcd]
  by_cases hdl : c = '$'
  · subst hdl
    simp only [beq_self_eq_true, Bool.true_and] at h5'
    rw [if_pos rfl, if_neg (by simp [h5'])]
  · rw [if_neg hdl]

theorem renderItem_length_pos (i : SqlItem) : 0 < (renderItem i).length := by
  cases i <;> simp [renderItem]

theorem renderItems_length_ge :
    ∀ (items : List SqlItem), items.length ≤ (renderItems items).length := by
  intro items
  induction items with
  | nil => simp [renderItems]
  | cons i rest ih =>
    have := renderItem_length_pos i
    simp only [renderItems, List.length_append, List.length_cons]
    omega

theorem stripSqlF_items :
    ∀ (items : List SqlItem) (k : List Char) (f : Nat), wfItemsK items k = true →
      stripSqlF (f + items.length) (renderItems items ++ k) =
        items.map itemScrub ++ stripSqlF f k := by
  intro items
  induction items with
  | nil => intro k f _; simp [renderItems]
  | cons i rest ih =>
    intro k f hwf
    have hfs : f + (i :: rest).length = (f + rest.length) + 1 := rfl
    cases i with
    | code c =>
      simp only [wfItemsK, Bool.and_eq_true] at hwf
      have heq : renderItems (SqlItem.code c :: rest) ++ k = c :: (renderItems rest ++ k) := by
        simp [renderItems, renderItem]
      rw [heq, hfs, stripSqlF_code (f + rest.length) c (renderItems rest ++ k) hwf.1,
        ih k f hwf.2]
      simp [itemScrub]
    | lineC b =>
      simp only [wfItemsK, Bool.and_eq_true] at hwf
      have heq : renderItems (SqlItem.lineC b :: rest) ++ k =
          '-' :: '-' :: (b ++ (renderItems rest ++ k)) := by
        simp [renderItems, renderItem]
      rw [heq, hfs, stripSqlF_lineC (f + rest.length) b (renderItems rest ++ k) hwf.1.1 hwf.1.2,
        ih k f hwf.2]
      simp [itemScrub]
    | blockC b =>
      simp only [wfItemsK, Bool.and_eq_true] at hwf
      have hcs : containsSub ['*', '/'] (b ++ ['*']) = false := bool_not_true hwf.1
      have heq : renderItems (SqlItem.blockC b :: rest) ++ k =
          '/' :: '*' :: (b ++ ('*' :: '/' :: (renderItems rest ++ k))) := by
        simp [renderItems, renderItem]
      rw [heq, hfs, stripSqlF_blockC (f + rest.length) b (renderItems rest ++ k) hcs,
        ih k f hwf.2]
      simp [itemScrub]
    | squote b =>
      simp only [wfItemsK, Bool.and_eq_true] at hwf
      have heq : renderItems (SqlItem.squote b :: rest) ++ k =
          sqc :: (b ++ sqc :: (renderItems rest ++ k)) := by
        simp [renderItems, renderItem]
      rw [heq, hfs, stripSqlF_squote (f + rest.length) b (renderItems rest ++ k) hwf.1.1 hwf.1.2,
        ih k f hwf.2]
      simp [itemScrub]
    | dquote b =>
      simp only [wfItemsK, Bool.and_eq_true] at hwf
      have heq : renderItems (SqlItem.dquote b :: rest) ++ k =
          dqc :: (b ++ dqc :: (renderItems rest ++ k)) := by
        simp [renderItems, renderItem]
      rw [heq, hfs, stripSqlF_dquote (f + rest.length) b (renderItems rest ++ k) hwf.1.1 hwf.1.2,
        ih k f hwf.2]
      simp [itemScrub]
    | dollarQ t b =>
      simp only [wfItemsK, Bool.and_eq_true] at hwf
      have hcs : containsSub ('$' :: (t ++ ['$'])) (b ++ '$' :: t) = false :=
        bool_not_true hwf.1.2
      have heq : renderItems (SqlItem.dollarQ t b :: rest) ++ k =
          '$' :: (t ++ '$' :: (b ++ '$' :: (t ++ '$' :: (renderItems rest ++ k)))) := by
        simp [renderItems, renderItem]
      rw [heq, hfs,
        stripSqlF_dollar (f + rest.length) t b (renderItems rest ++ k) hwf.1.1 hcs,
        ih k f hwf.2]
      simp [itemScrub]

theorem stripSql_items (items : List SqlItem) (h : wfItemsK items [] = true) :
    stripSql (renderItems items) = items.map itemScrub := by
  have hlen := renderItems_length_ge items
  have hmain := stripSqlF_items items [] ((renderItems items).length - items.length) h
  rw [Nat.sub_add_cancel hlen] at hmain
  simpa [stripSql, stripSqlF_nil] using hmain

theorem stripSql_items_untermQ (items : List SqlItem) (b : List Char) (q : Char)
    (hql : q = sqc ∨ q = dqc)
    (hwf : wfItemsK items (q :: b) = true) (hb : qbody q b = true) :
    stripSql (renderItems items ++ q :: b) = items.map itemScrub ++ [' '] := by
  have hlen := renderItems_length_ge items
  have heq : (renderItems items ++ q :: b).length =
      ((renderItems items).length - items.length + b.length + 1) + items.length := by
    simp only [List.length_append, List.length_cons]
    omega
  show stripSqlF (renderItems items ++ q :: b).length (renderItems items ++ q :: b) = _
  rw [heq, stripSqlF_items items (q :: b)
    ((renderItems items).length - items.length + b.length + 1) hwf]
  rcases hql with rfl | rfl
  · rw [stripSqlF_squote_unterminated _ b hb]
  · rw [stripSqlF_dquote_unterminated _ b hb]

theorem wordHere_head_false (prevW : Bool) (kw : List Char) (c : Char) (Y : List Char)
    (hne : kw ≠ []) (hh : headIs c kw = false) :
    wordHere prevW kw (c :: Y) = false := by
  cases kw with
  | nil => exact absurd rfl hne
  | cons k0 kw' =>
    simp only [headIs] at hh
    simp [wordHere, List.isPrefixOf_cons₂, hh]

theorem searchWords_skip (kws : List (List Char)) (hne : ∀ kw ∈ kws, kw ≠ []) :
    ∀ (pre : List Char), (∀ c ∈ pre, ∀ kw ∈ kws, headIs c kw = false) →
      ∀ (X : List Char) (prevW : Bool),
        searchWords kws prevW (pre ++ X) = searchWords kws (prevWordAfter pre prevW) X := by
  intro pre
  induction pre with
  | nil => intro _ X prevW; rfl
  | cons c pre' ih =>
    intro hmis X prevW
    have hany : (kws.any (fun kw => wordHere prevW kw (c :: (pre' ++ X)))) = false := by
      rw [List.any_eq_false]
      intro kw hkw
      simp [wordHere_head_false prevW kw c (pre' ++ X) (hne kw hkw)
        (hmis c (by simp) kw hkw)]
    show searchWords kws prevW (c :: (pre' ++ X)) = _
    simp only [searchWords, hany, Bool.false_or]
    exact ih (fun a ha kw hkw => hmis a (by simp [ha]) kw hkw) X (wordChar c)

theorem searchWords_prev_irrel (kws : List (List Char))
    (hh : ∀ kw ∈ kws, ∃ k0 kw', kw = k0 :: kw' ∧ wordChar k0 = true) :
    ∀ (X : List Char), boundAfter X = true → ∀ (w w' : Bool),
      searchWords kws w X = searchWords kws w' X := by
  intro X hX w w'
  cases X with
  | nil =>
    have hv : ∀ (v : Bool), (kws.any (fun kw => wordHere v kw [])) = false := by
      intro v
      rw [List.any_eq_false]
      intro kw hkw
      obtain ⟨k0, kw', rfl, _⟩ := hh kw hkw
      simp [wordHere]
    show kws.any (fun kw => wordHere w kw []) = kws.any (fun kw => wordHere w' kw [])
    rw [hv w, hv w']
  | cons c rest =>
    have hc : wordChar c = false := by simpa [boundAfter] using hX
    have hfirst : ∀ (v : Bool), (kws.any (fun kw => wordHere v kw (c :: rest))) = false := by
      intro v
      rw [List.any_eq_false]
      intro kw hkw
      obtain ⟨k0, kw', rfl, hk0⟩ := hh kw hkw
      have hk0c : (k0 == c) = false := by
        by_contra hx
        have : k0 = c := by
          revert hx; cases hbe : k0 == c
          · intro hy; exact absurd rfl hy
          · intro _; exact (beq_iff_eq ..).mp hbe
        subst this
        rw [hk0] at hc
        simp at hc
      simp [wordHere, List.isPrefixOf_cons₂, hk0c]
    simp only [searchWords, hfirst w, hfirst w', Bool.false_or]

theorem containsWordAny_explain_tail (lw rem : List Char)
    (h2 : lw.dropWhile pyIsSpace = "explain".toList ++ rem)
    (h3 : boundAfter rem = true) :
    containsWordAny lw ["select".toList, "with".toList] =
      containsWordAny rem ["select".toList, "with".toList] := by
  have hsplit : lw = lw.takeWhile pyIsSpace ++ ("explain".toList ++ rem) := by
    rw [← h2]
    exact (List.takeWhile_append_dropWhile pyIsSpace lw).symm
  have hne : ∀ kw ∈ (["select".toList, "with".toList] : List (List Char)), kw ≠ [] := by
    decide
  have hhead : ∀ kw ∈ (["select".toList, "with".toList] : List (List Char)),
      ∃ k0 kw', kw = k0 :: kw' ∧ wordChar k0 = true := by
    intro kw hkw
    simp only [List.mem_cons, List.not_mem_nil, or_false] at hkw
    rcases hkw with rfl | rfl
    · exact ⟨'s', "elect".toList, by decide, by decide⟩
    · exact ⟨'w', "ith".toList, by decide, by decide⟩
  have hmis1 : ∀ c ∈ lw.takeWhile pyIsSpace,
      ∀ kw ∈ (["select".toList, "with".toList] : List (List Char)), headIs c kw = false := by
    intro c hc kw hkw
    have hsp : pyIsSpace c = true := List.mem_takeWhile_imp hc
    have hcs : c = ' ' ∨ c = '\t' ∨ c = '\n' ∨ c = '\r' ∨ c = vtab ∨ c = ffeed := by
      have := hsp
      simp only [pyIsSpace, Bool.or_eq_true, beq_iff_eq] at this
      tauto
    simp only [List.mem_cons, List.not_mem_nil, or_false] at hkw
    rcases hkw with rfl | rfl <;>
      rcases hcs with rfl | rfl | rfl | rfl | rfl | rfl <;> decide
  have hmis2 : ∀ c ∈ ("explain".toList : List Char),
      ∀ kw ∈ (["select".toList, "with".toList] : List (List Char)), headIs c kw = false := by
    decide
  show searchWords ["select".toList, "with".toList] false lw = _
  conv_lhs => rw [hsplit]
  rw [searchWords_skip ["select".toList, "with".toList] hne (lw.takeWhile pyIsSpace) hmis1
    ("explain".toList ++ rem) false]
  rw [searchWords_skip ["select".toList, "with".toList] hne "explain".toList hmis2 rem
    (prevWordAfter (lw.takeWhile pyIsSpace) false)]
  have hpw : prevWordAfter "explain".toList (prevWordAfter (lw.takeWhile pyIsSpace) false) =
      true := by
    simp only [prevWordAfter]
    decide
  rw [hpw]
  exact searchWords_prev_irrel ["select".toList, "with".toList] hhead rem h3 true false

theorem enforce_multi (mode tool sql : String) (hm : ¬ mode = "unrestricted")
    (h : ensureSingleStatement (stripSql sql.toList) = none) :
    enforceAccessPolicy mode tool sql = some PolicyError.multipleStatementsForbidden := by
  unfold enforceAccessPolicy
  rw [if_neg hm, h]

theorem enforce_readonly_eq (tool sql : String) (single : List Char)
    (h : ensureSingleStatement (stripSql sql.toList) = some single) :
    enforceAccessPolicy "readonly" tool sql =
      (if tool = "pg_execute" then some PolicyError.toolForbidden
       else if !matchStartKeywords (single.map Char.toLower)
           ["select".toList, "with".toList, "explain".toList] then
         some PolicyError.statementTypeForbidden
       else if containsWordAny (single.map Char.toLower) kwListRO then
         some PolicyError.statementTypeForbidden
       else if matchStartKeywords (single.map Char.toLower) ["explain".toList] &&
           !containsWordAny (single.map Char.toLower) ["select".toList, "with".toList] then
         some PolicyError.statementTypeForbidden
       else none) := by
  unfold enforceAccessPolicy
  rw [if_neg (by decide), h]
  rfl

theorem enforce_limited_eq (tool sql : String) (single : List Char)
    (h : ensureSingleStatement (stripSql sql.toList) = some single) :
    enforceAccessPolicy "limited" tool sql =
      (if containsWordAny (single.map Char.toLower) ["grant".toList, "revoke".toList] then
         some PolicyError.statementTypeForbidden
       else if containsWordAny (single.map Char.toLower) ["drop".toList, "truncate".toList] then
         some PolicyError.statementTypeForbidden
       else if searchAlterSystem false (single.map Char.toLower) then
         some PolicyError.statementTypeForbidden
       else if requireWhereOk (single.map Char.toLower) then none
       else some PolicyError.missingWhereClause) := by
  unfold enforceAccessPolicy
  rw [if_neg (by decide), h]
  rfl

/-! Claim theorems. -/

/-- C6: in Unrestricted mode the Gate returns Allow for every SQL text and
every tool surface — the first branch of `_enforce_access_policy` returns
before the Stripper, Normalizer or Classifier can run, so even malformed
or multi-statement text produces no policy error. -/
theorem c6_unrestricted_allows_all :
    (∀ (tool sql : String), enforceAccessPolicy "unrestricted" tool sql = none) ∧
    enforceAccessPolicy "unrestricted" "pg_execute" "DROP TABLE x; DELETE FROM y; /* boom" =
      none := by
  constructor
  · intro tool sql
    unfold enforceAccessPolicy
    rw [if_pos rfl]
  · rfl

/-- C7 counterexample: through `pg_execute` in ReadOnly mode, the
multi-statement text `SELECT 1; SELECT 2` is denied with
MultipleStatementsForbidden (the Normalizer runs before the tool check),
not with ToolForbidden as the claim states. -/
theorem c7_counterexample :
    enforceAccessPolicy "readonly" "pg_execute" "SELECT 1; SELECT 2" =
      some PolicyError.multipleStatementsForbidden ∧
    ¬ enforceAccessPolicy "readonly" "pg_execute" "SELECT 1; SELECT 2" =
      some PolicyError.toolForbidden := by
  exact ⟨by decide, by decide⟩

/-- C7 (amended): in ReadOnly mode every `pg_execute` call is denied —
with ToolForbidden whenever the scrubbed text passes single-statement
normalization, and with MultipleStatementsForbidden otherwise; it is
never allowed. -/
theorem c7_execute_denied_amended :
    (∀ sql : String,
      enforceAccessPolicy "readonly" "pg_execute" sql = some PolicyError.toolForbidden ∨
      enforceAccessPolicy "readonly" "pg_execute" sql =
        some PolicyError.multipleStatementsForbidden) ∧
    (∀ (sql : String) (single : List Char),
      ensureSingleStatement (stripSql sql.toList) = some single →
      enforceAccessPolicy "readonly" "pg_execute" sql = some PolicyError.toolForbidden) := by
  have hkey : ∀ (sql : String) (single : List Char),
      ensureSingleStatement (stripSql sql.toList) = some single →
      enforceAccessPolicy "readonly" "pg_execute" sql = some PolicyError.toolForbidden := by
    intro sql single h
    rw [enforce_readonly_eq "pg_execute" sql single h, if_pos rfl]
  constructor
  · intro sql
    cases h : ensureSingleStatement (stripSql sql.toList) with
    | none => exact Or.inr (enforce_multi "readonly" "pg_execute" sql (by decide) h)
    | some single => exact Or.inl (hkey sql single h)
  · exact hkey

/-- C7 witness: the single statement `DELETE FROM t` through `pg_execute`
in ReadOnly mode is denied with ToolForbidden. -/
theorem c7_witness :
    enforceAccessPolicy "readonly" "pg_execute" "DELETE FROM t" =
      some PolicyError.toolForbidden :=
  c7_execute_denied_amended.2 "DELETE FROM t" "DELETE FROM t".toList (by decide)

/-- C3 counterexample: for `SELECT 1;;`, removing at most one trailing
terminator (the claim wording, `specStripOneTerminator`) leaves a `;` in
the text, so the claim requires a MultipleStatementsForbidden denial —
but the Gate allows it, because `_ensure_single_statement` removes ALL
directly trailing semicolons via `rstrip(";")`. -/
theorem c3_counterexample :
    (specStripOneTerminator (stripSql ("SELECT 1;;" : String).toList)).contains ';' = true ∧
    enforceAccessPolicy "readonly" "pg_query" "SELECT 1;;" = none := by
  exact ⟨by decide, by decide⟩

/-- C3 (amended): the Normalizer trims whitespace, strips EVERY directly
trailing `;`, and trims again; the Gate denies with
MultipleStatementsForbidden exactly when a `;` remains after that, in
every mode except unrestricted.  `SELECT 1; SELECT 2` is denied,
`SELECT 1;` is allowed, and `SELECT 1;;` is also allowed. -/
theorem c3_normalizer_amended :
    (∀ (mode tool sql : String), ¬ mode = "unrestricted" →
      ensureSingleStatement (stripSql sql.toList) = none →
      enforceAccessPolicy mode tool sql = some PolicyError.multipleStatementsForbidden) ∧
    (∀ s : List Char,
      ensureSingleStatement s = none ↔
        (pyStripChars (rstripSemi (pyStripChars s))).contains ';' = true) ∧
    enforceAccessPolicy "readonly" "pg_query" "SELECT 1; SELECT 2" =
      some PolicyError.multipleStatementsForbidden ∧
    enforceAccessPolicy "readonly" "pg_query" "SELECT 1;" = none ∧
    enforceAccessPolicy "readonly" "pg_query" "SELECT 1;;" = none := by
  refine ⟨fun mode tool sql hm h => enforce_multi mode tool sql hm h, ?_, by decide,
    by decide, by decide⟩
  intro s
  unfold ensureSingleStatement
  by_cases hc : (pyStripChars (rstripSemi (pyStripChars s))).contains ';' = true
  · simp [hc]
  · simp [hc]

/-- C3 witness: the denial instance at a concrete multi-statement input
in Limited mode. -/
theorem c3_witness :
    enforceAccessPolicy "limited" "pg_query" "SELECT 2; SELECT 3" =
      some PolicyError.multipleStatementsForbidden :=
  c3_normalizer_amended.1 "limited" "pg_query" "SELECT 2; SELECT 3" (by decide) (by decide)

/-- C2 counterexample: in `select update_count from t`, the keyword
`update` occurs at offset 7 with non-alphanumeric neighbours (space
before, underscore after), so under the claimed uniform boundary
semantics the ReadOnly forbidden-keyword scan would fire — but the
ReadOnly Gate allows the statement, because the regex scan treats the
underscore as a word character and accepts no match there. -/
theorem c2_counterexample :
    specWordAtAlnum ("select update_count from t".toList) ("update".toList) 7 = true ∧
    enforceAccessPolicy "readonly" "pg_query" "select update_count from t" = none := by
  exact ⟨by decide, by decide⟩

/-- C2 (amended): the two whole-word primitives differ on underscores.
`has_word_at` (used by the Limited update/delete rule) accepts offset `i`
exactly when the neighbours, when present, are not alphanumeric — an
underscore counts as a boundary there; the regex `\b` scans (ReadOnly
forbidden keywords and the other keyword rules) treat the underscore as a
word character.  Concretely, `select update_count from t` is denied with
MissingWhereClause in Limited mode yet allowed in ReadOnly mode. -/
theorem c2_boundary_amended :
    (∀ (lw : List Char) (i : Nat) (w : List Char),
      hasWordAt lw (some i) w = true ↔
        ((i = 0 ∨ (lw.getD (i - 1) ' ').isAlphanum = false) ∧
         (lw.length ≤ i + w.length ∨ (lw.getD (i + w.length) ' ').isAlphanum = false))) ∧
    enforceAccessPolicy "limited" "pg_query" "select update_count from t" =
      some PolicyError.missingWhereClause ∧
    enforceAccessPolicy "readonly" "pg_query" "select update_count from t" = none := by
  refine ⟨?_, by decide, by decide⟩
  intro lw i w
  constructor
  · intro h
    simp only [hasWordAt, Bool.and_eq_true, Bool.or_eq_true, beq_iff_eq,
      Bool.not_eq_true', decide_eq_true_eq] at h
    exact h
  · intro h
    simp only [hasWordAt, Bool.and_eq_true, Bool.or_eq_true, beq_iff_eq,
      Bool.not_eq_true', decide_eq_true_eq]
    exact h

/-- C5 counterexample: the module-level initialisation accepts the
unrecognized environment value `banana` without any error — startup
proceeds — and the first request then fails with the per-request
UnknownAccessMode classifier error the claim says can never surface. -/
theorem c5_counterexample :
    initialAccessMode (some "banana") = "banana" ∧
    enforceAccessPolicy (initialAccessMode (some "banana")) "pg_query" "select 1" =
      some PolicyError.unknownAccessMode := by
  exact ⟨by decide, by decide⟩

/-- C5 (amended): only the CLI path validates the mode string:
`_set_access_mode` normalizes and accepts exactly
readonly/limited/unrestricted, raising the fatal configuration error
otherwise; the environment path stores the normalized string unchecked,
so startup proceeds, and the unrecognized mode surfaces per request —
with the classifier's UnknownAccessMode error for every request whose
scrubbed text passes single-statement normalization, and with
MultipleStatementsForbidden for the rest (the Normalizer runs before the
mode dispatch); no request under such a mode is ever allowed. -/
theorem c5_mode_validation_amended :
    (∀ (mode out : String), setAccessMode mode = Except.ok out →
      out = "readonly" ∨ out = "limited" ∨ out = "unrestricted") ∧
    (∀ mode : String,
      setAccessMode mode = Except.ok (String.mk ((pyStripChars mode.toList).map Char.toLower)) ∨
      setAccessMode mode =
        Except.error "access mode must be one of: readonly, limited, unrestricted") ∧
    initialAccessMode (some "banana") = "banana" ∧
    (∀ (mode tool sql : String) (single : List Char),
      ¬ mode = "unrestricted" → ¬ mode = "readonly" → ¬ mode = "limited" →
      ensureSingleStatement (stripSql sql.toList) = some single →
      enforceAccessPolicy mode tool sql = some PolicyError.unknownAccessMode) ∧
    (∀ (tool sql : String),
      enforceAccessPolicy "banana" tool sql = some PolicyError.unknownAccessMode ∨
      enforceAccessPolicy "banana" tool sql = some PolicyError.multipleStatementsForbidden) ∧
    enforceAccessPolicy "banana" "pg_query" "select 1" = some PolicyError.unknownAccessMode := by
  have hgen : ∀ (mode tool sql : String) (single : List Char),
      ¬ mode = "unrestricted" → ¬ mode = "readonly" → ¬ mode = "limited" →
      ensureSingleStatement (stripSql sql.toList) = some single →
      enforceAccessPolicy mode tool sql = some PolicyError.unknownAccessMode := by
    intro mode tool sql single hm1 hm2 hm3 h
    unfold enforceAccessPolicy
    rw [if_neg hm1, h]
    dsimp only
    rw [if_neg hm2, if_neg hm3]
  refine ⟨?_, ?_, by decide, hgen, ?_, by decide⟩
  · intro mode out h
    unfold setAccessMode at h
    dsimp only at h
    split at h
    · rename_i hcond
      have hout : String.mk ((pyStripChars mode.toList).map Char.toLower) = out := by
        simpa using h
      rw [← hout]
      exact hcond
    · exact absurd h (by simp)
  · intro mode
    unfold setAccessMode
    dsimp only
    split
    · exact Or.inl rfl
    · exact Or.inr rfl
  · intro tool sql
    cases h : ensureSingleStatement (stripSql sql.toList) with
    | none => exact Or.inr (enforce_multi "banana" tool sql (by decide) h)
    | some single =>
      exact Or.inl (hgen "banana" tool sql single (by decide) (by decide) (by decide) h)

/-- C5 witness: a CLI mode string with stray case and whitespace is
normalized and accepted, the accepted value is one of the three known
modes, and an unrecognized mode carried into the Gate yields the
per-request UnknownAccessMode denial on a normalizing input. -/
theorem c5_witness :
    setAccessMode " LIMITED " = Except.ok "limited" ∧
    ("limited" = "readonly" ∨ "limited" = "limited" ∨ "limited" = "unrestricted") ∧
    enforceAccessPolicy "banana" "pg_execute" "SELECT 9" =
      some PolicyError.unknownAccessMode := by
  refine ⟨by rfl, ?_, ?_⟩
  · exact c5_mode_validation_amended.1 " LIMITED " "limited" (by rfl)
  · exact c5_mode_validation_amended.2.2.2.1 "banana" "pg_execute" "SELECT 9"
      "SELECT 9".toList (by decide) (by decide) (by decide) (by decide)

/-- C9: when the scrubbed, normalized text is empty, Limited mode allows
the request on both tool surfaces, while the ReadOnly query surface
denies with StatementTypeForbidden because the empty text does not start
with select, with, or explain. -/
theorem c9_empty_statement :
    ∀ sql : String, ensureSingleStatement (stripSql sql.toList) = some [] →
      enforceAccessPolicy "limited" "pg_query" sql = none ∧
      enforceAccessPolicy "limited" "pg_execute" sql = none ∧
      enforceAccessPolicy "readonly" "pg_query" sql = some PolicyError.statementTypeForbidden := by
  intro sql h
  refine ⟨?_, ?_, ?_⟩
  · rw [enforce_limited_eq "pg_query" sql [] h]
    rfl
  · rw [enforce_limited_eq "pg_execute" sql [] h]
    rfl
  · rw [enforce_readonly_eq "pg_query" sql [] h]
    rfl

/-- C9 witness: an input consisting solely of a block comment normalizes
to the empty statement and shows all three behaviors. -/
theorem c9_witness :
    enforceAccessPolicy "limited" "pg_query" "/* DROP TABLE x */" = none ∧
    enforceAccessPolicy "limited" "pg_execute" "/* DROP TABLE x */" = none ∧
    enforceAccessPolicy "readonly" "pg_query" "/* DROP TABLE x */" =
      some PolicyError.statementTypeForbidden :=
  c9_empty_statement "/* DROP TABLE x */" (by decide)

/-- C1: the Lexical Stripper replaces every recognized span (line or
block comment, single-quoted literal, double-quoted identifier,
dollar-quoted string) by exactly one separator and passes every code
character through unchanged and in order — for every well-formed item
decomposition of the input, the scrubbed text is the item-wise image in
which no character of any span body survives; hence a forbidden keyword
occurring only inside such spans cannot reach the classifier.  In
particular, `SELECT 'I will DELETE this' AS note` and
`SELECT $tag$DROP TABLE x$tag$ AS s` are both allowed in ReadOnly
mode. -/
theorem c1_stripper_span_elision :
    (∀ items : List SqlItem, wfItemsK items [] = true →
      stripSql (renderItems items) = items.map itemScrub) ∧
    enforceAccessPolicy "readonly" "pg_query" c1sqlQuote = none ∧
    enforceAccessPolicy "readonly" "pg_query" "SELECT $tag$DROP TABLE x$tag$ AS s" = none := by
  exact ⟨stripSql_items, by decide, by decide⟩

/-- C1 witness: a concrete decomposition — code character, single-quoted
literal hiding `DROP TABLE x`, code character — scrubs to the two code
characters around one separator. -/
theorem c1_witness :
    stripSql (renderItems
      [SqlItem.code 'a', SqlItem.squote "DROP TABLE x".toList, SqlItem.code 'b']) =
      [SqlItem.code 'a', SqlItem.squote "DROP TABLE x".toList, SqlItem.code 'b'].map
        itemScrub :=
  c1_stripper_span_elision.1
    [SqlItem.code 'a', SqlItem.squote "DROP TABLE x".toList, SqlItem.code 'b'] (by decide)

/-- C10: an unterminated single-quoted literal or double-quoted
identifier consumes from the opening quote to the end of the input and
the whole consumed span becomes exactly one separator, so nothing after
the opening quote reaches classification; e.g. `SELECT 'x AND DROP
TABLE t` is allowed in ReadOnly mode. -/
theorem c10_unterminated_quotes :
    (∀ (items : List SqlItem) (b : List Char),
      wfItemsK items (sqc :: b) = true → qbody sqc b = true →
      stripSql (renderItems items ++ sqc :: b) = items.map itemScrub ++ [' ']) ∧
    (∀ (items : List SqlItem) (b : List Char),
      wfItemsK items (dqc :: b) = true → qbody dqc b = true →
      stripSql (renderItems items ++ dqc :: b) = items.map itemScrub ++ [' ']) ∧
    enforceAccessPolicy "readonly" "pg_query" c10sqlSingle = none ∧
    enforceAccessPolicy "readonly" "pg_query" c10sqlDouble = none := by
  refine ⟨?_, ?_, by decide, by decide⟩
  · intro items b hwf hb
    exact stripSql_items_untermQ items b sqc (Or.inl rfl) hwf hb
  · intro items b hwf hb
    exact stripSql_items_untermQ items b dqc (Or.inr rfl) hwf hb

/-- C10 witness: one code character followed by an unterminated
single-quoted literal scrubs to that character and one separator. -/
theorem c10_witness :
    stripSql (renderItems [SqlItem.code 'S'] ++ sqc :: "DROP TABLE t".toList) =
      [SqlItem.code 'S'].map itemScrub ++ [' '] :=
  c10_unterminated_quotes.1 [SqlItem.code 'S'] "DROP TABLE t".toList (by decide) (by decide)

/-- C4 counterexample: in `updates update t set x=1` the first whole-word
occurrence of `update` (per the claim boundary semantics) is at offset 8
and its tail has no WHERE, so the claim requires Deny(MissingWhereClause)
in Limited mode — but the Gate allows the statement: the code takes
`lowered.find("update")`, the first SUBSTRING occurrence (offset 0,
inside `updates`), rejects it as not whole-word, and skips the rule. -/
theorem c4_counterexample :
    specFirstWholeWordIdx ("updates update t set x=1".toList) ("update".toList) = some 8 ∧
    whereOk (("updates update t set x=1".toList).drop 8) = false ∧
    specFirstWholeWordIdx ("updates update t set x=1".toList) ("delete".toList) = none ∧
    enforceAccessPolicy "limited" "pg_query" "updates update t set x=1" = none := by
  exact ⟨by decide, by decide, by decide, by decide⟩

/-- C4 (amended): the Limited WHERE rule locates the first SUBSTRING
occurrence of `update` and of `delete`, considers each only when
`has_word_at` accepts that occurrence as whole-word (non-alphanumeric
neighbours), and takes the smaller qualifying offset; a later whole-word
occurrence is never considered when the first substring occurrence is
embedded in a longer identifier.  From the selected offset to the end of
text, the rule passes iff `" where "` occurs in the tail or the tail
ends with `" where"`; when no earlier Limited rule fires, the Gate
decision is exactly this rule.  `SELECT * FROM updates` is allowed,
`UPDATE t SET x=1` is denied with MissingWhereClause, and
`UPDATE t SET x=1 WHERE id=1` is allowed. -/
theorem c4_where_rule_amended :
    (∀ (sql : String) (single : List Char),
      ensureSingleStatement (stripSql sql.toList) = some single →
      containsWordAny (single.map Char.toLower) ["grant".toList, "revoke".toList] = false →
      containsWordAny (single.map Char.toLower) ["drop".toList, "truncate".toList] = false →
      searchAlterSystem false (single.map Char.toLower) = false →
      ∀ tool : String,
        enforceAccessPolicy "limited" tool sql =
          (if requireWhereOk (single.map Char.toLower) then none
           else some PolicyError.missingWhereClause)) ∧
    (∀ (lw : List Char) (i : Nat), firstUpdateDeleteIdx lw = some i →
      requireWhereOk lw = whereOk (lw.drop i)) ∧
    (∀ lw : List Char, firstUpdateDeleteIdx lw = none → requireWhereOk lw = true) ∧
    enforceAccessPolicy "limited" "pg_query" "SELECT * FROM updates" = none ∧
    enforceAccessPolicy "limited" "pg_query" "UPDATE t SET x=1" =
      some PolicyError.missingWhereClause ∧
    enforceAccessPolicy "limited" "pg_query" "UPDATE t SET x=1 WHERE id=1" = none := by
  refine ⟨?_, ?_, ?_, by decide, by decide, by decide⟩
  · intro sql single h h1 h2 h3 tool
    rw [enforce_limited_eq tool sql single h, if_neg (ne_true_of_eq_false h1),
      if_neg (ne_true_of_eq_false h2), if_neg (ne_true_of_eq_false h3)]
  · intro lw i h
    unfold requireWhereOk
    rw [h]
  · intro lw h
    unfold requireWhereOk
    rw [h]

/-- C4 witness: the amended rule evaluated at `DELETE FROM t` through
`pg_execute` yields the MissingWhereClause denial. -/
theorem c4_witness :
    enforceAccessPolicy "limited" "pg_execute" "DELETE FROM t" =
      some PolicyError.missingWhereClause := by
  have h := c4_where_rule_amended.1 "DELETE FROM t" "DELETE FROM t".toList (by decide)
    (by decide) (by decide) (by decide) "pg_execute"
  rw [h]
  decide

/-- C8: in ReadOnly mode on the query surface, a normalized single
statement that starts (after leading whitespace) with the word `explain`
is allowed only if the remainder contains the whole word `select` or
`with`, and is denied with StatementTypeForbidden when the remainder
contains neither; `EXPLAIN SELECT 1` is allowed and
`EXPLAIN DELETE FROM t` is denied. -/
theorem c8_explain_requires_select_or_with :
    (∀ (sql : String) (single rem : List Char),
      ensureSingleStatement (stripSql sql.toList) = some single →
      (single.map Char.toLower).dropWhile pyIsSpace = "explain".toList ++ rem →
      boundAfter rem = true →
      (enforceAccessPolicy "readonly" "pg_query" sql = none →
        containsWordAny rem ["select".toList, "with".toList] = true) ∧
      (containsWordAny rem ["select".toList, "with".toList] = false →
        enforceAccessPolicy "readonly" "pg_query" sql =
          some PolicyError.statementTypeForbidden)) ∧
    enforceAccessPolicy "readonly" "pg_query" "EXPLAIN SELECT 1" = none ∧
    enforceAccessPolicy "readonly" "pg_query" "EXPLAIN DELETE FROM t" =
      some PolicyError.statementTypeForbidden := by
  refine ⟨?_, by decide, by decide⟩
  intro sql single rem h1 h2 h3
  have htail := containsWordAny_explain_tail (single.map Char.toLower) rem h2 h3
  have hstart : matchStartKeywords (single.map Char.toLower)
      ["select".toList, "with".toList, "explain".toList] = true := by
    unfold matchStartKeywords
    rw [h2]
    apply List.any_eq_true.mpr
    refine ⟨"explain".toList, by simp, ?_⟩
    rw [Bool.and_eq_true]
    refine ⟨isPrefixOf_append_self .., ?_⟩
    rw [List.drop_left]
    exact h3
  have hstart2 : matchStartKeywords (single.map Char.toLower) ["explain".toList] = true := by
    unfold matchStartKeywords
    rw [h2]
    apply List.any_eq_true.mpr
    refine ⟨"explain".toList, by simp, ?_⟩
    rw [Bool.and_eq_true]
    refine ⟨isPrefixOf_append_self .., ?_⟩
    rw [List.drop_left]
    exact h3
  rw [enforce_readonly_eq "pg_query" sql single h1, if_neg (by decide),
    if_neg (ne_true_of_eq_false (by rw [hstart]; rfl))]
  constructor
  · intro hallow
    by_cases hro : containsWordAny (single.map Char.toLower) kwListRO = true
    · rw [if_pos hro] at hallow
      exact absurd hallow (by simp)
    · rw [if_neg hro] at hallow
      by_cases hcw : containsWordAny (single.map Char.toLower)
          ["select".toList, "with".toList] = true
      · rw [← htail]
        exact hcw
      · have hcwf : containsWordAny (single.map Char.toLower)
            ["select".toList, "with".toList] = false := by
          revert hcw
          cases containsWordAny (single.map Char.toLower) ["select".toList, "with".toList] <;>
            simp
        rw [if_pos (by rw [hstart2, hcwf]; rfl)] at hallow
        exact absurd hallow (by simp)
  · intro hnone
    have hlwf : containsWordAny (single.map Char.toLower)
        ["select".toList, "with".toList] = false := by
      rw [htail]
      exact hnone
    by_cases hro : containsWordAny (single.map Char.toLower) kwListRO = true
    · rw [if_pos hro]
    · rw [if_neg hro, if_pos (by rw [hstart2, hlwf]; rfl)]

/-- C8 witness: `EXPLAIN ANALYZE VACUUM` starts with the word `explain`
and its remainder contains neither `select` nor `with`, so it is denied
with StatementTypeForbidden. -/
theorem c8_witness :
    enforceAccessPolicy "readonly" "pg_query" "EXPLAIN ANALYZE VACUUM" =
      some PolicyError.statementTypeForbidden :=
  (c8_explain_requires_select_or_with.1 "EXPLAIN ANALYZE VACUUM"
    "EXPLAIN ANALYZE VACUUM".toList " analyze vacuum".toList
    (by decide) (by decide) (by decide)).2 (by decide)

/-- C2 witness: the amended boundary characterization instantiated at
offset 0 of `update_count` — accepted because the underscore after
`update` is not alphanumeric. -/
theorem c2_witness :
    (0 = 0 ∨ (("update_count".toList).getD (0 - 1) ' ').isAlphanum = false) ∧
    ("update_count".toList.length ≤ 0 + "update".toList.length ∨
      (("update_count".toList).getD (0 + "update".toList.length) ' ').isAlphanum = false) :=
  (c2_boundary_amended.1 "update_count".toList 0 "update".toList).mp (by decide)
